import Mathlib

/-!
Verification of the hand-detection core (src/hand.c) against its
natural-language specification.  The C program's geometry and detection
logic is shallowly embedded: pixel points become integer pairs, the
per-frame `struct ctx` becomes an explicit state record, and the external
OpenCV calls (capture, segmentation, contour extraction, hull and
convexity-defect computation) become parameters supplying their per-frame
results, exactly as the spec treats them (an external vision-primitives
collaborator).
-/

namespace Hand

/-- NUM_FINGERS from hand.c. -/
def NUM_FINGERS : Nat := 5

/-- NUM_DEFECTS from hand.c (the defect-buffer capacity, MAX_DEFECTS in the spec). -/
def NUM_DEFECTS : Nat := 8

/-- CvPoint: integer pixel coordinates. -/
structure Point where
  x : Int
  y : Int
deriving DecidableEq, Repr

/-- Squared Euclidean distance, as computed inline in hand.c
(`(cx - px)*(cx - px) + (cy - py)*(cy - py)`). -/
def sqDist (a b : Point) : Int :=
  (a.x - b.x) * (a.x - b.x) + (a.y - b.y) * (a.y - b.y)

/-- Truncating integer square root: models the C `dist += sqrt(d)` where the
nonnegative double result is truncated on conversion to int.  Counts the
positive integers j with j*j <= n, which is the floor of the real square
root. -/
def isqrt (n : Nat) : Nat :=
  (List.range n).countP (fun k => (k + 1) * (k + 1) <= n)

/-- The per-frame mutable state of `struct ctx` that the core algorithms
read and write.  `fingers` and `defects` hold the meaningful prefix of the
corresponding fixed-capacity C buffers (the first `num_fingers` /
`num_defects` slots written this frame); images, storages and handles are
external and not modelled. -/
structure Ctx where
  contour : Option (List Point)
  hull : Option (List Point)
  hand_center : Point
  fingers : List Point
  defects : List Point
  num_fingers : Nat
  hand_radius : Int
  num_defects : Nat
deriving DecidableEq, Repr

/-- `find_contour` (hand.c lines 139-166).  Contour extraction, area
selection and polyline approximation are external; `found` is the resulting
approximated largest-area contour, or none when no contour was found.  The
C function assigns `ctx->contour` only inside `if (contour) { ... }`: when
nothing is found the stored contour is left untouched. -/
def find_contour (st : Ctx) (found : Option (List Point)) : Ctx :=
  match found with
  | none => st
  | some c => { st with contour := some c }

/-- `find_convex_hull` (hand.c lines 168-224), the defect aggregator.
`hullRes` is the external `cvConvexHull2` result and `rawDefects` the depth
points of the external `cvConvexityDefects` list (its `total` elements, in
order; the depth scalars are unused by the code).  Faithful details:
the x/y sums run over `i < total && i < NUM_DEFECTS` while both divisions
are by `total`; `num_defects` is assigned the raw `total`; the radius sum
runs over all `total` defects from the already-computed center; all
divisions are C truncating division (`Int.tdiv`). -/
def find_convex_hull (st : Ctx) (hullRes : Option (List Point)) (rawDefects : List Point) : Ctx :=
  match st.contour with
  | none => { st with hull := none }
  | some _ =>
    match hullRes with
    | none => { st with hull := none }
    | some hl =>
      if rawDefects = [] then { st with hull := some hl }
      else
        let total : Int := rawDefects.length
        let sampled := rawDefects.take NUM_DEFECTS
        let cx := Int.tdiv (sampled.foldl (fun a p => a + p.x) 0) total
        let cy := Int.tdiv (sampled.foldl (fun a p => a + p.y) 0) total
        let center : Point := ⟨cx, cy⟩
        let dsum := rawDefects.foldl (fun a p => a + ((isqrt (sqDist center p).toNat : Nat) : Int)) 0
        { st with hull := some hl,
                  defects := sampled,
                  num_defects := rawDefects.length,
                  hand_center := center,
                  hand_radius := Int.tdiv dsum total }

/-- The body of the `for (i = 0; i < n; i++)` scan of `find_fingers`
(hand.c lines 248-267), one point at a time: `d1`/`d2` are `dist1`/`dist2`,
`mp` the rolling `max_point`, `acc` the fingers written so far, `ht` the
frame height.  The acceptance test, the append, the `break` once
`num_fingers >= NUM_FINGERS + 1`, and the register roll
(`dist2 = dist1; dist1 = dist; max_point = points[i]`) mirror the C loop
body in order. -/
def fingersLoop (c : Point) (ht : Int) : Int → Int → Point → List Point → List Point → List Point
  | _, _, _, acc, [] => acc
  | d1, d2, mp, acc, p :: ps =>
    if sqDist c p < d1 ∧ d1 > d2 ∧ mp.x ≠ 0 ∧ mp.y < ht - 10 then
      if NUM_FINGERS + 1 ≤ (acc ++ [mp]).length then acc ++ [mp]
      else fingersLoop c ht (sqDist c p) d1 p (acc ++ [mp]) ps
    else fingersLoop c ht (sqDist c p) d1 p acc ps

/-- One iteration of the same scan as an explicit step on a state record,
used to speak about what a single loop iteration appends.  `stopped` models
having taken the `break`. -/
structure FSt where
  d1 : Int
  d2 : Int
  mp : Point
  acc : List Point
  stopped : Bool
deriving DecidableEq, Repr

/-- Single iteration of the `find_fingers` scan on an `FSt` state:
identical tests and updates to `fingersLoop`, with `stopped` recording the
`break`. -/
def fstep (c : Point) (ht : Int) (s : FSt) (p : Point) : FSt :=
  if s.stopped then s
  else if sqDist c p < s.d1 ∧ s.d1 > s.d2 ∧ s.mp.x ≠ 0 ∧ s.mp.y < ht - 10 then
    if NUM_FINGERS + 1 ≤ (s.acc ++ [s.mp]).length then
      { s with acc := s.acc ++ [s.mp], stopped := true }
    else
      { d1 := sqDist c p, d2 := s.d1, mp := p, acc := s.acc ++ [s.mp], stopped := false }
  else { d1 := sqDist c p, d2 := s.d1, mp := p, acc := s.acc, stopped := false }

/-- `find_fingers` (hand.c lines 226-270).  `num_fingers` is zeroed first;
if either `ctx->contour` or `ctx->hull` is null the function returns with
the finger buffer untouched.  Otherwise the scan runs over the contour
points with `dist1 = dist2 = 0`; `mp0` models the initial contents of the
uninitialized C local `max_point`. -/
def find_fingers (st : Ctx) (ht : Int) (mp0 : Point) : Ctx :=
  match st.contour, st.hull with
  | some pts, some _ =>
    let fs := fingersLoop st.hand_center ht 0 0 mp0 [] pts
    { st with fingers := fs, num_fingers := fs.length }
  | _, _ => { st with num_fingers := 0 }

/-- A drawing primitive issued by `display` (cvCircle / cvLine). -/
inductive Draw where
  | circle (center : Point) (radius : Int)
  | line (p q : Point)
deriving DecidableEq, Repr

/-- The overlay drawn inside `if (ctx->num_fingers == NUM_FINGERS)` in
`display` (hand.c lines 276-299): the small center circle, the hand-radius
circle, per finger a marker circle and a center-to-finger line, and per
defect a small marker circle. -/
def overlayCmds (st : Ctx) : List Draw :=
  [Draw.circle st.hand_center 5, Draw.circle st.hand_center st.hand_radius]
    ++ (st.fingers.take st.num_fingers).flatMap
        (fun f => [Draw.circle f 10, Draw.line st.hand_center f])
    ++ (st.defects.take st.num_defects).map (fun d => Draw.circle d 2)

/-- What `display` (hand.c lines 272-303) emits for a frame: the gated
overlay, plus the unconditional `cvShowImage` calls on the output and
thresholded windows. -/
structure DisplayOut where
  overlay : Option (List Draw)
  showOutput : Bool
  showThresholded : Bool
deriving DecidableEq, Repr

/-- `display`: the overlay is produced exactly under
`ctx->num_fingers == NUM_FINGERS`; both windows are always shown. -/
def display (st : Ctx) : DisplayOut :=
  { overlay := if st.num_fingers = NUM_FINGERS then some (overlayCmds st) else none,
    showOutput := true,
    showThresholded := true }

/-- The per-frame results of the external collaborators: the extracted
(approximated) contour if any, the hull result, the raw convexity-defect
depth points, the frame height, and the initial contents of the
uninitialized `max_point` local. -/
structure ExtIn where
  contourFound : Option (List Point)
  hullRes : Option (List Point)
  rawDefects : List Point
  height : Int
  mp0 : Point

/-- One frame of the main loop's detection chain (hand.c lines 318-321):
`find_contour; find_convex_hull; find_fingers` on the shared `ctx`. -/
def frame (st : Ctx) (ext : ExtIn) : Ctx :=
  find_fingers (find_convex_hull (find_contour st ext.contourFound) ext.hullRes ext.rawDefects)
    ext.height ext.mp0

/-- One full iteration of the `do { ... } while` loop in `main`
(hand.c lines 315-327): run the detection chain, call `display`, and record
the frame (`cvWriteFrame` is called unconditionally every iteration). -/
structure IterOut where
  state : Ctx
  disp : DisplayOut
  recorded : Bool
deriving Repr

/-- One `main`-loop iteration. -/
def mainIteration (st : Ctx) (ext : ExtIn) : IterOut :=
  let st2 := frame st ext
  { state := st2, disp := display st2, recorded := true }

/-- The spec's center formula (section 4.2 item 1): componentwise arithmetic
mean of the depth points of ALL raw defects, with truncating integer
division. -/
def specCenter (ds : List Point) : Point :=
  ⟨Int.tdiv (ds.map (fun p => p.x)).sum ds.length,
   Int.tdiv (ds.map (fun p => p.y)).sum ds.length⟩

/-- The spec's radius formula (section 4.2 item 2): truncating mean over all
raw defects of the truncated square root of the squared distance from the
center to each depth point. -/
def specRadius (c : Point) (ds : List Point) : Int :=
  Int.tdiv (ds.map (fun p => ((isqrt (sqDist c p).toNat : Nat) : Int))).sum ds.length


/-! ### Concrete inputs used to instantiate and to refute claims -/

/-- The zero-initialized `struct ctx = { }` of `main`. -/
def ctx0 : Ctx := ⟨none, none, ⟨0, 0⟩, [], [], 0, 0, 0⟩

/-- A state with a (trivial) contour present, as after a successful
`find_contour`. -/
def ctxA : Ctx := { ctx0 with contour := some [⟨1, 1⟩] }

/-- A hull value for the external `cvConvexHull2` result. -/
def hl0 : List Point := [⟨0, 0⟩]

/-- The spec's worked example: depth points (0,0), (10,0), (0,10), (10,10). -/
def ds4 : List Point := [⟨0, 0⟩, ⟨10, 0⟩, ⟨0, 10⟩, ⟨10, 10⟩]

/-- Nine raw defects, one more than the cap NUM_DEFECTS = 8, all at (9,0). -/
def ds9 : List Point := List.replicate 9 ⟨9, 0⟩

/-- A three-point contour whose middle point (0,5) is the farthest from the
center (10,0): a strict local maximum with x-coordinate 0. -/
def st4 : Ctx :=
  { ctx0 with contour := some [⟨9, 0⟩, ⟨0, 5⟩, ⟨9, 0⟩], hull := some hl0,
              hand_center := ⟨10, 0⟩ }

/-- A three-point contour whose middle point (5,5) is the farthest from the
center (0,0): the scan accepts at index 2. -/
def st8 : Ctx :=
  { ctx0 with contour := some [⟨1, 1⟩, ⟨5, 5⟩, ⟨1, 1⟩], hull := some hl0,
              hand_center := ⟨0, 0⟩ }

/-- Thirteen alternating near/far contour points around center (0,0): the
scan accepts at indices 2, 4, 6, 8, 10 and 12, reaching the finger cap
exactly at the last point. -/
def L1 : List Point :=
  [⟨1, 1⟩, ⟨5, 5⟩, ⟨1, 1⟩, ⟨5, 5⟩, ⟨1, 1⟩, ⟨5, 5⟩, ⟨1, 1⟩, ⟨5, 5⟩, ⟨1, 1⟩, ⟨5, 5⟩,
   ⟨1, 1⟩, ⟨5, 5⟩, ⟨1, 1⟩]

/-- Frame-1 inputs: a contour is found, one defect at (2,2). -/
def ext1 : ExtIn := ⟨some [⟨3, 3⟩, ⟨4, 4⟩, ⟨5, 5⟩], some hl0, [⟨2, 2⟩], 100, ⟨0, 0⟩⟩

/-- Frame-2 inputs: no contour is found this frame; the external hull/defect
stage still produces results (from the stale stored contour), one defect at
(8,4). -/
def ext2 : ExtIn := ⟨none, some hl0, [⟨8, 4⟩], 100, ⟨0, 0⟩⟩

/-- A mid-scan state about to process a far point: distance registers 50, 2,
candidate (5,5), no fingers yet. -/
def sW4 : FSt := ⟨50, 2, ⟨5, 5⟩, [], false⟩

/-- A mid-scan state with distance registers 2, 0 and candidate (1,1). -/
def sW8 : FSt := ⟨2, 0, ⟨1, 1⟩, [], false⟩

/-! ### Basic facts about the embedded operations -/

/-- Squared distances are nonnegative. -/
theorem sqDist_nonneg (a b : Point) : 0 ≤ sqDist a b :=
  add_nonneg (mul_self_nonneg _) (mul_self_nonneg _)

/-- Folding `+ p.x` is summing the x coordinates. -/
theorem foldl_add_x (ds : List Point) : ∀ a : Int,
    ds.foldl (fun s p => s + p.x) a = a + (ds.map (fun p => p.x)).sum := by
  induction ds with
  | nil => intro a; simp
  | cons p t ih => intro a; simp [ih, add_assoc]

/-- Folding `+ p.y` is summing the y coordinates. -/
theorem foldl_add_y (ds : List Point) : ∀ a : Int,
    ds.foldl (fun s p => s + p.y) a = a + (ds.map (fun p => p.y)).sum := by
  induction ds with
  | nil => intro a; simp
  | cons p t ih => intro a; simp [ih, add_assoc]

/-- Folding the truncated distances is summing them. -/
theorem foldl_add_dist (c : Point) (ds : List Point) : ∀ a : Int,
    ds.foldl (fun s p => s + ((isqrt (sqDist c p).toNat : Nat) : Int)) a
      = a + (ds.map (fun p => ((isqrt (sqDist c p).toNat : Nat) : Int))).sum := by
  induction ds with
  | nil => intro a; simp
  | cons p t ih =>
    intro a
    rw [List.foldl_cons, ih, List.map_cons, List.sum_cons]
    ring

/-- Unfolding `fstep` on a non-stopped state, definitionally. -/
theorem fstep_running (c : Point) (ht d1 d2 : Int) (mp : Point) (acc : List Point) (p : Point) :
    fstep c ht ⟨d1, d2, mp, acc, false⟩ p =
      if sqDist c p < d1 ∧ d1 > d2 ∧ mp.x ≠ 0 ∧ mp.y < ht - 10 then
        (if NUM_FINGERS + 1 ≤ (acc ++ [mp]).length then ⟨d1, d2, mp, acc ++ [mp], true⟩
          else ⟨sqDist c p, d1, p, acc ++ [mp], false⟩)
      else ⟨sqDist c p, d1, p, acc, false⟩ := rfl

/-- A stopped state is a fixed point of `fstep`. -/
theorem fstep_of_stopped (c : Point) (ht : Int) (s : FSt) (p : Point)
    (h : s.stopped = true) : fstep c ht s p = s := by
  simp [fstep, h]

/-- A stopped state is a fixed point of the whole fold. -/
theorem foldl_fstep_stopped (c : Point) (ht : Int) (l : List Point) :
    ∀ s : FSt, s.stopped = true → l.foldl (fstep c ht) s = s := by
  induction l with
  | nil => intro s _; rfl
  | cons p ps ih =>
    intro s h
    rw [List.foldl_cons, fstep_of_stopped c ht s p h]
    exact ih s h

/-- The C `for` loop and the explicit per-iteration step compute the same
finger list. -/
theorem fingersLoop_eq_foldl (c : Point) (ht : Int) (l : List Point) :
    ∀ (d1 d2 : Int) (mp : Point) (acc : List Point),
    fingersLoop c ht d1 d2 mp acc l = (l.foldl (fstep c ht) ⟨d1, d2, mp, acc, false⟩).acc := by
  induction l with
  | nil => intro d1 d2 mp acc; rfl
  | cons p ps ih =>
    intro d1 d2 mp acc
    rw [List.foldl_cons, fstep_running]
    simp only [fingersLoop]
    split_ifs with hc hl
    · rw [foldl_fstep_stopped c ht ps ⟨d1, d2, mp, acc ++ [mp], true⟩ rfl]
    · exact ih (sqDist c p) d1 p (acc ++ [mp])
    · exact ih (sqDist c p) d1 p acc

/-- `fstep` either leaves the finger list alone or appends the rolling
candidate point. -/
theorem fstep_acc_eq_or (c : Point) (ht : Int) (s : FSt) (p : Point) :
    (fstep c ht s p).acc = s.acc ∨ (fstep c ht s p).acc = s.acc ++ [s.mp] := by
  by_cases hs : s.stopped = true
  · rw [fstep_of_stopped c ht s p hs]; exact Or.inl rfl
  · obtain ⟨d1, d2, mp, acc, stopped⟩ := s
    have hb : stopped = false := by
      cases stopped
      · rfl
      · exact absurd rfl hs
    subst hb
    rw [fstep_running]
    split_ifs with hc hl
    · exact Or.inr rfl
    · exact Or.inr rfl
    · exact Or.inl rfl

/-- After an iteration that does not stop, the rolling candidate register
holds the point just processed. -/
theorem fstep_mp_of_running (c : Point) (ht : Int) (s : FSt) (p : Point)
    (h : (fstep c ht s p).stopped = false) : (fstep c ht s p).mp = p := by
  by_cases hs : s.stopped = true
  · rw [fstep_of_stopped c ht s p hs] at h
    exact absurd h (by simp [hs])
  · obtain ⟨d1, d2, mp, acc, stopped⟩ := s
    have hb : stopped = false := by
      cases stopped
      · rfl
      · exact absurd rfl hs
    subst hb
    rw [fstep_running] at h ⊢
    by_cases hc : sqDist c p < d1 ∧ d1 > d2 ∧ mp.x ≠ 0 ∧ mp.y < ht - 10
    · rw [if_pos hc] at h ⊢
      by_cases hl : NUM_FINGERS + 1 ≤ (acc ++ [mp]).length
      · rw [if_pos hl] at h
        exact absurd h (by simp)
      · rw [if_neg hl]
    · rw [if_neg hc]

/-- The finger count never passes the cap: if fewer than
`NUM_FINGERS + 1` fingers were collected so far, the loop ends with at most
`NUM_FINGERS + 1`. -/
theorem fingersLoop_length_le (c : Point) (ht : Int) (l : List Point) :
    ∀ (d1 d2 : Int) (mp : Point) (acc : List Point), acc.length < NUM_FINGERS + 1 →
    (fingersLoop c ht d1 d2 mp acc l).length ≤ NUM_FINGERS + 1 := by
  induction l with
  | nil => intro d1 d2 mp acc h; exact Nat.le_of_lt h
  | cons p ps ih =>
    intro d1 d2 mp acc h
    simp only [fingersLoop]
    split_ifs with hc hl
    · simp only [List.length_append, List.length_cons, List.length_nil]
      omega
    · refine ih (sqDist c p) d1 p (acc ++ [mp]) ?_
      simp only [List.length_append, List.length_cons, List.length_nil] at hl ⊢
      omega
    · exact ih (sqDist c p) d1 p acc h

/-- Once the loop's result reaches the cap it took the `break`: appending
any further contour points to the scanned list does not change the result. -/
theorem fingersLoop_break (c : Point) (ht : Int) (l1 : List Point) :
    ∀ (l2 : List Point) (d1 d2 : Int) (mp : Point) (acc : List Point),
    acc.length < NUM_FINGERS + 1 →
    (fingersLoop c ht d1 d2 mp acc l1).length = NUM_FINGERS + 1 →
    fingersLoop c ht d1 d2 mp acc (l1 ++ l2) = fingersLoop c ht d1 d2 mp acc l1 := by
  induction l1 with
  | nil =>
    intro l2 d1 d2 mp acc h h6
    simp only [fingersLoop] at h6
    omega
  | cons p ps ih =>
    intro l2 d1 d2 mp acc h h6
    simp only [List.cons_append, fingersLoop] at h6 ⊢
    split_ifs at h6 ⊢ with hc hl
    · rfl
    · refine ih l2 (sqDist c p) d1 p (acc ++ [mp]) ?_ h6
      simp only [List.length_append, List.length_cons, List.length_nil] at hl ⊢
      omega
    · exact ih l2 (sqDist c p) d1 p acc h h6

/-- With both rolling distance registers at 0, the first iteration of the
scan can only take the reject branch, whatever the candidate register
holds. -/
theorem fingersLoop_zero_init (c : Point) (ht : Int) (mp mq : Point) (l : List Point) :
    fingersLoop c ht 0 0 mp [] l = fingersLoop c ht 0 0 mq [] l := by
  cases l with
  | nil => rfl
  | cons p ps =>
    have hn : ∀ r : Point, ¬(sqDist c p < 0 ∧ (0 : Int) > 0 ∧ r.x ≠ 0 ∧ r.y < ht - 10) :=
      fun r hr => absurd hr.1 (not_lt.mpr (sqDist_nonneg c p))
    simp only [fingersLoop, if_neg (hn mp), if_neg (hn mq)]


/-- `find_convex_hull` never writes the stored contour. -/
theorem find_convex_hull_contour (st : Ctx) (hr : Option (List Point)) (ds : List Point) :
    (find_convex_hull st hr ds).contour = st.contour := by
  unfold find_convex_hull
  split
  · rfl
  · split
    · rfl
    · split
      · rfl
      · rfl

/-- `find_fingers` never writes the stored contour. -/
theorem find_fingers_contour (st : Ctx) (ht : Int) (mp0 : Point) :
    (find_fingers st ht mp0).contour = st.contour := by
  unfold find_fingers
  cases hc : st.contour with
  | none => rfl
  | some pts =>
    cases hh : st.hull with
    | none => rfl
    | some hl => rfl

/-! ### The claims -/

/-- C1, counterexample: with nine raw defects all at (9,0) the computed hand
center is (8,0), not the componentwise arithmetic mean (9,0) of the depth
points of all raw defects — the code sums only the first NUM_DEFECTS = 8
depth points yet divides by the raw total 9. -/
theorem center_not_mean_of_all_defects_cex :
    (find_convex_hull ctxA (some hl0) ds9).hand_center ≠ specCenter ds9 := by decide

/-- C1, amended: when the raw defect list has at most NUM_DEFECTS = 8
entries (so that the sampled defects are all of them), the hand center is
the componentwise arithmetic mean, with truncating integer division, of the
depth points of all raw defects. -/
theorem center_eq_mean_within_cap (st : Ctx) (cont hl ds : List Point)
    (hcont : st.contour = some cont) (hne : ds ≠ []) (hle : ds.length ≤ NUM_DEFECTS) :
    (find_convex_hull st (some hl) ds).hand_center = specCenter ds := by
  simp only [find_convex_hull, hcont]
  rw [if_neg hne]
  simp [specCenter, foldl_add_x, foldl_add_y, List.take_of_length_le hle]

/-- C1, witness: the spec's four-defect example satisfies the amended claim,
with mean (5,5). -/
theorem center_eq_mean_within_cap_witness :
    (find_convex_hull ctxA (some hl0) ds4).hand_center = specCenter ds4 ∧
    specCenter ds4 = ⟨5, 5⟩ :=
  ⟨center_eq_mean_within_cap ctxA [⟨1, 1⟩] hl0 ds4 rfl (by decide) (by decide), by decide⟩

/-- C2: with nine raw defects, `find_convex_hull` stores
`num_defects = 9 > NUM_DEFECTS = 8` — the code assigns the raw total rather
than the truncated count, violating the claimed invariant (and letting
`display` read past the 8-entry defect buffer). -/
theorem num_defects_exceeds_cap_bug :
    NUM_DEFECTS < (find_convex_hull ctxA (some hl0) ds9).num_defects ∧
    (find_convex_hull ctxA (some hl0) ds9).num_defects = 9 := by decide

/-- C3, counterexample: after a frame that found a contour, a frame in which
contour extraction finds none leaves the previous contour stored (not null)
and downstream detection still runs on it — here the hand center changes
from the stale-contour frame's defect aggregation. -/
theorem stale_contour_reused_cex :
    (frame (frame ctx0 ext1) ext2).contour ≠ none ∧
    (frame (frame ctx0 ext1) ext2).hand_center ≠ (frame ctx0 ext1).hand_center := by decide

/-- C3, amended: on a frame in which contour extraction finds no contour the
stored contour keeps its prior value (so it is null only if no contour has
ever been found), and downstream detection is skipped exactly in that
never-found case: center, radius, defect data stay unchanged, the hull is
null and the finger count resets to 0. -/
theorem no_contour_found_frame_behavior (st : Ctx) (ext : ExtIn)
    (hfound : ext.contourFound = none) :
    (frame st ext).contour = st.contour ∧
    (st.contour = none →
      (frame st ext).hand_center = st.hand_center ∧
      (frame st ext).hand_radius = st.hand_radius ∧
      (frame st ext).num_defects = st.num_defects ∧
      (frame st ext).defects = st.defects ∧
      (frame st ext).fingers = st.fingers ∧
      (frame st ext).hull = none ∧
      (frame st ext).num_fingers = 0) := by
  have h1 : find_contour st ext.contourFound = st := by rw [hfound]; rfl
  constructor
  · simp [frame, h1, find_fingers_contour, find_convex_hull_contour]
  · intro hcont
    have h2 : find_convex_hull st ext.hullRes ext.rawDefects = { st with hull := none } := by
      unfold find_convex_hull
      rw [hcont]
    simp [frame, h1, h2, find_fingers, hcont]

/-- C3, witness: starting from the zero-initialized context, a frame with no
contour found leaves everything at its prior/default state. -/
theorem no_contour_found_frame_witness :
    (frame ctx0 ext2).contour = ctx0.contour ∧
    (frame ctx0 ext2).hand_center = ctx0.hand_center ∧
    (frame ctx0 ext2).hand_radius = ctx0.hand_radius ∧
    (frame ctx0 ext2).num_defects = ctx0.num_defects ∧
    (frame ctx0 ext2).hull = none ∧
    (frame ctx0 ext2).num_fingers = 0 := by
  obtain ⟨ha, hb⟩ := no_contour_found_frame_behavior ctx0 ext2 rfl
  obtain ⟨h1, h2, h3, h4, h5, h6, h7⟩ := hb rfl
  exact ⟨ha, h1, h2, h3, h6, h7⟩

/-- C4, counterexample: on the contour (9,0), (0,5), (9,0) with center
(10,0) and frame height 100, the spec's acceptance condition holds at index
2 — the previous sample is a strict local peak, the candidate point (0,5)
is not the origin and is more than 10 pixels above the bottom — yet no
candidate is appended: the code tests `max_point.x != 0`, not
"point differs from (0,0)", and (0,5) has x = 0. -/
theorem fingertip_origin_test_cex :
    (sqDist ⟨10, 0⟩ ⟨9, 0⟩ < sqDist ⟨10, 0⟩ ⟨0, 5⟩ ∧
      sqDist ⟨10, 0⟩ ⟨0, 5⟩ > sqDist ⟨10, 0⟩ ⟨9, 0⟩ ∧
      (⟨0, 5⟩ : Point) ≠ ⟨0, 0⟩ ∧ (Point.mk 0 5).y < 100 - 10) ∧
    st4.contour = some [⟨9, 0⟩, ⟨0, 5⟩, ⟨9, 0⟩] ∧
    (find_fingers st4 100 ⟨7, 7⟩).num_fingers = 0 := by decide

/-- C4, amended: at any scan iteration that has not already taken the break,
a candidate (namely the rolling candidate point) is appended exactly when
`dist_now < dist_prev`, `dist_prev > dist_prev2`, the candidate point's
x-coordinate is nonzero (not: the point differs from the origin), and its
y-coordinate is less than the frame height minus 10. -/
theorem fingertip_append_iff (c : Point) (ht : Int) (s : FSt) (p : Point)
    (hrun : s.stopped = false) :
    (fstep c ht s p).acc = s.acc ++ [s.mp] ↔
      (sqDist c p < s.d1 ∧ s.d1 > s.d2 ∧ s.mp.x ≠ 0 ∧ s.mp.y < ht - 10) := by
  obtain ⟨d1, d2, mp, acc, stopped⟩ := s
  subst hrun
  rw [fstep_running]
  by_cases hc : sqDist c p < d1 ∧ d1 > d2 ∧ mp.x ≠ 0 ∧ mp.y < ht - 10
  · rw [if_pos hc]
    by_cases hl : NUM_FINGERS + 1 ≤ (acc ++ [mp]).length
    · rw [if_pos hl]
      simpa using hc
    · rw [if_neg hl]
      simpa using hc
  · rw [if_neg hc]
    simp [hc]

/-- C4, witness: a concrete non-stopped state at which the characterization
is instantiated; the step appends the candidate (5,5). -/
theorem fingertip_append_iff_witness :
    ((fstep ⟨0, 0⟩ 100 sW4 ⟨1, 1⟩).acc = sW4.acc ++ [sW4.mp] ↔
      (sqDist ⟨0, 0⟩ ⟨1, 1⟩ < sW4.d1 ∧ sW4.d1 > sW4.d2 ∧ sW4.mp.x ≠ 0 ∧
        sW4.mp.y < 100 - 10)) ∧
    (fstep ⟨0, 0⟩ 100 sW4 ⟨1, 1⟩).acc = [⟨5, 5⟩] :=
  ⟨fingertip_append_iff ⟨0, 0⟩ 100 sW4 ⟨1, 1⟩ rfl, by decide⟩

/-- C5: for every nonempty raw defect list the stored hand radius equals the
truncating mean, over all raw defects, of the truncated square roots of the
squared distances from the computed center to each depth point. -/
theorem radius_eq_mean_truncated_distances (st : Ctx) (cont hl ds : List Point)
    (hcont : st.contour = some cont) (hne : ds ≠ []) :
    (find_convex_hull st (some hl) ds).hand_radius
      = specRadius (find_convex_hull st (some hl) ds).hand_center ds := by
  simp only [find_convex_hull, hcont]
  rw [if_neg hne]
  simp [specRadius, foldl_add_dist]

/-- C5, witness: the spec's example — depth points (0,0), (10,0), (0,10),
(10,10) give center (5,5) and radius 7 (7.07 truncated). -/
theorem radius_eq_mean_truncated_distances_witness :
    ((find_convex_hull ctxA (some hl0) ds4).hand_radius
      = specRadius (find_convex_hull ctxA (some hl0) ds4).hand_center ds4) ∧
    (find_convex_hull ctxA (some hl0) ds4).hand_center = ⟨5, 5⟩ ∧
    (find_convex_hull ctxA (some hl0) ds4).hand_radius = 7 :=
  ⟨radius_eq_mean_truncated_distances ctxA [⟨1, 1⟩] hl0 ds4 rfl (by decide),
    by decide, by decide⟩

/-- C6: the fingertip detector returns at most NUM_FINGERS + 1 = 6
candidates, and once the scan's result has reached 6 the loop has taken the
break: scanning any further contour points changes nothing. -/
theorem fingers_capped_and_break (st : Ctx) (ht : Int) (c mp0 : Point) (l1 l2 : List Point) :
    (find_fingers st ht mp0).num_fingers ≤ NUM_FINGERS + 1 ∧
    (fingersLoop c ht 0 0 mp0 [] l1).length ≤ NUM_FINGERS + 1 ∧
    ((fingersLoop c ht 0 0 mp0 [] l1).length = NUM_FINGERS + 1 →
      fingersLoop c ht 0 0 mp0 [] (l1 ++ l2) = fingersLoop c ht 0 0 mp0 [] l1) := by
  refine ⟨?_, fingersLoop_length_le c ht l1 0 0 mp0 [] (by decide),
    fun h6 => fingersLoop_break c ht l1 l2 0 0 mp0 [] (by decide) h6⟩
  unfold find_fingers
  cases hc : st.contour with
  | none => simp
  | some pts =>
    cases hh : st.hull with
    | none => simp
    | some hl =>
      simpa using fingersLoop_length_le st.hand_center ht pts 0 0 mp0 [] (by decide)

/-- C6, witness: on the 13-point contour L1 the scan collects exactly 6
candidates and appending a further point to the scanned list changes
nothing. -/
theorem fingers_capped_and_break_witness :
    fingersLoop ⟨0, 0⟩ 100 0 0 ⟨7, 7⟩ [] (L1 ++ [⟨5, 5⟩])
        = fingersLoop ⟨0, 0⟩ 100 0 0 ⟨7, 7⟩ [] L1 ∧
    (fingersLoop ⟨0, 0⟩ 100 0 0 ⟨7, 7⟩ [] L1).length = NUM_FINGERS + 1 :=
  ⟨(fingers_capped_and_break ctx0 100 ⟨0, 0⟩ ⟨7, 7⟩ L1 [⟨5, 5⟩]).2.2 (by decide),
    by decide⟩

/-- C7: on an empty raw defect list the defect aggregator is a no-op on the
hand model: center, radius and defect count keep their previous values. -/
theorem empty_defect_list_noop (st : Ctx) (hullRes : Option (List Point)) :
    (find_convex_hull st hullRes []).hand_center = st.hand_center ∧
    (find_convex_hull st hullRes []).hand_radius = st.hand_radius ∧
    (find_convex_hull st hullRes []).num_defects = st.num_defects := by
  unfold find_convex_hull
  split
  · exact ⟨rfl, rfl, rfl⟩
  · split
    · exact ⟨rfl, rfl, rfl⟩
    · split
      · exact ⟨rfl, rfl, rfl⟩
      · rename_i h
        exact absurd rfl h

/-- C8, counterexample: on the contour (1,1), (5,5), (1,1) the only
acceptance is at index 2, and the appended candidate is (5,5) — the point
one step behind the current index — not the point (1,1) two steps behind,
refuting the claim that the candidate register equals the point two steps
back. -/
theorem candidate_not_two_back_cex :
    st8.contour = some [⟨1, 1⟩, ⟨5, 5⟩, ⟨1, 1⟩] ∧
    (find_fingers st8 100 ⟨7, 7⟩).fingers = [⟨5, 5⟩] ∧
    (⟨5, 5⟩ : Point) ≠ ⟨1, 1⟩ := by decide

/-- C8, amended: whenever an iteration processes point p without stopping,
the candidate register afterwards holds p itself, so a candidate appended at
the next iteration is the contour point one step behind the current index
(the immediately preceding point), not two. -/
theorem candidate_point_one_step_back (c : Point) (ht : Int) (s : FSt) (p q : Point)
    (hrun : (fstep c ht s p).stopped = false) :
    (fstep c ht s p).mp = p ∧
    ((fstep c ht (fstep c ht s p) q).acc ≠ (fstep c ht s p).acc →
      (fstep c ht (fstep c ht s p) q).acc = (fstep c ht s p).acc ++ [p]) := by
  have h1 : (fstep c ht s p).mp = p := fstep_mp_of_running c ht s p hrun
  refine ⟨h1, fun hne => ?_⟩
  rcases fstep_acc_eq_or c ht (fstep c ht s p) q with h | h
  · exact absurd h hne
  · rw [h, h1]

/-- C8, witness: a concrete two-iteration run in which the second iteration
appends exactly the point processed by the first. -/
theorem candidate_point_one_step_back_witness :
    (fstep ⟨0, 0⟩ 100 sW8 ⟨5, 5⟩).mp = ⟨5, 5⟩ ∧
    (fstep ⟨0, 0⟩ 100 (fstep ⟨0, 0⟩ 100 sW8 ⟨5, 5⟩) ⟨1, 1⟩).acc
      = (fstep ⟨0, 0⟩ 100 sW8 ⟨5, 5⟩).acc ++ [⟨5, 5⟩] := by
  obtain ⟨h1, h2⟩ := candidate_point_one_step_back ⟨0, 0⟩ 100 sW8 ⟨5, 5⟩ ⟨1, 1⟩ (by decide)
  exact ⟨h1, h2 (by decide)⟩

/-- C9: in every main-loop iteration the hand overlay is produced exactly
when the finger count is 5 (NUM_FINGERS); the raw and thresholded frames
are shown and the frame is recorded regardless. -/
theorem overlay_drawn_iff_five_fingers (st : Ctx) (ext : ExtIn) :
    ((mainIteration st ext).disp.overlay ≠ none ↔
      (mainIteration st ext).state.num_fingers = 5) ∧
    (mainIteration st ext).disp.showOutput = true ∧
    (mainIteration st ext).disp.showThresholded = true ∧
    (mainIteration st ext).recorded = true := by
  refine ⟨?_, rfl, rfl, rfl⟩
  show (display (frame st ext)).overlay ≠ none ↔ (frame st ext).num_fingers = 5
  unfold display
  by_cases h : (frame st ext).num_fingers = NUM_FINGERS
  · rw [if_pos h]
    simp [h, NUM_FINGERS]
  · rw [if_neg h]
    simp only [NUM_FINGERS] at h
    simp [h]

/-- C10: the fingertip detector's output does not depend on the initial
(uninitialized) value of the candidate-point register: at index 0 both
rolling distance registers are 0 while the squared distance is nonnegative,
so the strict comparisons fail and the first iteration always rejects. -/
theorem fingers_independent_of_initial_candidate (st : Ctx) (ht : Int) (mp mq : Point) :
    find_fingers st ht mp = find_fingers st ht mq := by
  unfold find_fingers
  cases hc : st.contour with
  | none => rfl
  | some pts =>
    cases hh : st.hull with
    | none => rfl
    | some hl => simp only [fingersLoop_zero_init st.hand_center ht mp mq pts]

end Hand
